import Mathlib

/-!
Verification of the stage-2 harvesting core of the gun-violence-data
repository: the field extractor (`scripts/stage2_extractor.py`) and the fetch
session (`scripts/stage2_session.py`), shallowly embedded in Lean.

Strings are modelled as Lean `String`s (character lists), Python `int` as
`Int`/`Nat`, Python `float` values produced by parsing decimal text as `Rat`,
and every fatal error path (`assert`, uncaught exception) as an `Option`/sum
failure value.
-/

deriving instance DecidableEq for Except

namespace Stage2

/-- A field value: a string, an integer (`int(...)` results), or a number
produced by `float(...)` (modelled as the exact rational value of the parsed
decimal text). -/
inductive Val where
  | s (v : String)
  | i (v : Int)
  | f (v : Rat)
deriving DecidableEq

/-- `Field = namedtuple('Field', ['name', 'value'])`; a `None` value is
`Option.none`. -/
structure Field where
  name : String
  value : Option Val
deriving DecidableEq

/-- The literal list in the source, before the `sorted(...)` call. -/
def ALL_FIELD_NAMES_input : List String :=
  ["latitude", "longitude", "location_description",
   "participant_type", "participant_name", "participant_age",
   "participant_age_group", "participant_gender", "participant_status",
   "participant_relationship",
   "incident_characteristics",
   "notes",
   "n_guns_involved", "gun_type", "gun_stolen",
   "sources",
   "congressional_district", "state_senate_district", "state_house_district"]

/-- `ALL_FIELD_NAMES = sorted([...])`: the fixed field schema, written out in
its sorted order (see `ALL_FIELD_NAMES_eq_sorted`). -/
def ALL_FIELD_NAMES : List String :=
  ["congressional_district", "gun_stolen", "gun_type",
   "incident_characteristics", "latitude", "location_description",
   "longitude", "n_guns_involved", "notes", "participant_age",
   "participant_age_group", "participant_gender", "participant_name",
   "participant_relationship", "participant_status", "participant_type",
   "sources", "state_house_district", "state_senate_district"]

theorem ALL_FIELD_NAMES_eq_sorted :
    ALL_FIELD_NAMES =
      ALL_FIELD_NAMES_input.insertionSort (fun a b => a.data ≤ b.data) := by decide

/-- `NIL_FIELDS = tuple(Field(name, None) for name in ALL_FIELD_NAMES)`. -/
def NIL_FIELDS : List Field := ALL_FIELD_NAMES.map (fun n => Field.mk n none)

/-- Python's substring test `needle in hay`. -/
def pyIn (needle hay : String) : Bool := decide (needle.data <:+: hay.data)

/-- `_stringify_list(lst, sep='||')`: `next((item for item in lst if sep in
item), None)` must be `None` (else the `assert` fires, modelled as `none`);
then the items are joined with `sep`. -/
def _stringify_list (lst : List String) (sep : String := "||") : Option String :=
  match lst.find? (fun item => pyIn sep item) with
  | some _ => none
  | none => some (String.intercalate sep lst)

/-- `_stringify_dict(d, insep='::', outsep='||')` on the mappings the extractor
builds (group-number keys, string values): keys are stringified with `str`,
any key or value containing either separator trips the `assert` (`none`);
otherwise the `key::value` pairs are joined with `outsep`. -/
def _stringify_dict (d : List (Nat × String)) (insep : String := "::")
    (outsep : String := "||") : Option String :=
  let keys := d.map (fun kv => toString kv.1)
  let values := d.map (fun kv => kv.2)
  match keys.find? (fun key => pyIn insep key || pyIn outsep key),
        values.find? (fun value => pyIn insep value || pyIn outsep value) with
  | none, none =>
      some (String.intercalate outsep
        ((keys.zip values).map (fun kv => String.intercalate insep [kv.1, kv.2])))
  | _, _ => none

/-- `_out_name(in_name, prefix='')`:
`prefix + in_name.lower().replace(' ', '_')` (character-wise lowering and
single-character replacement, expressed on the character list). -/
def _out_name (in_name : String) (pre : String := "") : String :=
  pre ++ ⟨(in_name.data.map Char.toLower).map (fun c => if c = ' ' then '_' else c)⟩

/-- The loop body of `_getdict(lines, apply)`, threading the dictionary `d`
(an insertion-ordered association list, as in Python). Empty lines are
skipped; a line without `':'` fails the `assert index != -1`; a key already
present fails `assert key not in d`; `apply` raising (e.g. `int(...)` on
non-numeric text) aborts. The value starts two characters after the colon
(`line[index + 2:]`). -/
def _getdictAux (apply : String → Option α) :
    List String → List (String × α) → Option (List (String × α))
  | [], d => some d
  | line :: rest, d =>
    if line = "" then _getdictAux apply rest d
    else
      match line.data.findIdx? (· == ':') with
      | none => none
      | some index =>
        let key : String := ⟨line.data.take index⟩
        let value : String := ⟨line.data.drop (index + 2)⟩
        if (d.map Prod.fst).contains key then none
        else
          match apply value with
          | none => none
          | some v => _getdictAux apply rest (d ++ [(key, v)])

/-- `_getdict(lines, apply=None)` (with `apply=None` modelled by `some`). -/
def _getdict (lines : List String) (apply : String → Option α) :
    Option (List (String × α)) :=
  _getdictAux apply lines []

/-- One step of the `ds2[key][groupno] = value` rebuild in `_getdicts`:
append to an existing key's (insertion-ordered) inner mapping, or append a
fresh key at the end. -/
def upsertGroup (acc : List (String × List (Nat × String))) (key : String)
    (groupno : Nat) (value : String) : List (String × List (Nat × String)) :=
  match acc with
  | [] => [(key, [(groupno, value)])]
  | (k, vs) :: rest =>
    if k = key then (k, vs ++ [(groupno, value)]) :: rest
    else (k, vs) :: upsertGroup rest key groupno value

/-- The swap loop of `_getdicts`: `ds[0]['name'] -> ds['name'][0]`, iterating
groups in increasing `groupno` order. -/
def transposeGroups :
    List (List (String × String)) → Nat → List (String × List (Nat × String)) →
    List (String × List (Nat × String))
  | [], _, acc => acc
  | d :: ds, groupno, acc =>
    transposeGroups ds (groupno + 1)
      (d.foldl (fun a kv => upsertGroup a kv.1 groupno kv.2) acc)

/-- `_getdicts(linegroups, apply=None)` (every call site uses the default
`apply`): build one `_getdict` per group, then transpose. -/
def _getdicts (linegroups : List (List String)) :
    Option (List (String × List (Nat × String))) := do
  let ds ← linegroups.mapM (fun lines => _getdict lines (fun v => some v))
  pure (transposeGroups ds 0 [])

/-- The key relation of `sorted(fields, key=lambda f: f.name)`. Python
compares strings lexicographically by code point, i.e. by their character
lists (`String.le_iff_toList_le`). -/
def fieldLE (a b : Field) : Prop := a.name.data ≤ b.name.data

instance : DecidableRel fieldLE := fun a b =>
  inferInstanceAs (Decidable (a.name.data ≤ b.name.data))

/-- Python `list.insert(i, x)`: clamps an out-of-range index to the end. -/
def pyInsert (l : List Field) (i : Nat) (x : Field) : List Field :=
  if i ≤ l.length then l.insertIdx i x else l ++ [x]

/-- The dummy-insertion loop of `_normalize`: walk `ALL_FIELD_NAMES` with a
running index `i`, inserting `Field(name, None)` at position `i` for each
name missing from `field_names`. -/
def insertMissing (field_names : List String) :
    List String → Nat → List Field → List Field
  | [], _, fields => fields
  | name :: names, i, fields =>
    if field_names.contains name then insertMissing field_names names (i + 1) fields
    else insertMissing field_names names (i + 1) (pyInsert fields i (Field.mk name none))

/-- `_normalize(fields)`: sort by name (Python's stable sort), fail on an
empty input (`next(zip(*fields))` raises `StopIteration`), fail if any field
name lies outside `ALL_FIELD_NAMES` (`assert not should_be_empty`), insert
null dummies for the missing names, and fail unless the final length equals
`len(ALL_FIELD_NAMES)`. -/
def _normalize (fields : List Field) : Option (List Field) :=
  match fields with
  | [] => none
  | _ :: _ =>
    let sorted := List.insertionSort fieldLE fields
    let field_names := sorted.map Field.name
    if field_names.all (fun n => ALL_FIELD_NAMES.contains n) then
      let result := insertMissing field_names ALL_FIELD_NAMES 0 sorted
      if result.length = ALL_FIELD_NAMES.length then some result else none
    else none

/-! ### Python numeric conversions -/

/-- Value of a digit string, as Python's `int` computes it for digits. -/
def digitsToNat (cs : List Char) : Nat :=
  cs.foldl (fun n c => n * 10 + (c.toNat - 48)) 0

/-- `int(s)` on text: surrounding whitespace allowed, optional sign, then one
or more decimal digits; anything else raises `ValueError` (`none`). -/
def pyInt (s : String) : Option Int :=
  let cs := s.data.dropWhile Char.isWhitespace
  let cs := (cs.reverse.dropWhile Char.isWhitespace).reverse
  match cs with
  | [] => none
  | c :: rest =>
    let (neg, ds) :=
      if c = '-' then (true, rest)
      else if c = '+' then (false, rest) else (false, c :: rest)
    if ds ≠ [] ∧ ds.all Char.isDigit then
      some (if neg then -(digitsToNat ds : Int) else (digitsToNat ds : Int))
    else none

/-- The optional exponent tail of a Python float literal: empty, or
`e`/`E`, an optional sign and one or more digits. Multiplies `v` by the
corresponding power of ten. -/
def pyFloatExp (cs : List Char) (v : Rat) : Option Rat :=
  match cs with
  | [] => some v
  | e :: rest =>
    if e = 'e' ∨ e = 'E' then
      match rest with
      | [] => none
      | c :: rest2 =>
        let (neg, ds) :=
          if c = '-' then (true, rest2)
          else if c = '+' then (false, rest2) else (false, c :: rest2)
        if ds ≠ [] ∧ ds.all Char.isDigit then
          some (v * (10 : Rat) ^ (if neg then -(digitsToNat ds : Int) else (digitsToNat ds : Int)))
        else none
    else none

/-- `float(s)` on ordinary decimal text (`digits[.digits][exp]`,
`.digits[exp]`, `digits.[exp]`, with an optional sign and surrounding
whitespace); the exact rational value of the parsed literal. Any other text
raises `ValueError` (`none`). -/
def pyFloat (s : String) : Option Rat :=
  let cs := s.data.dropWhile Char.isWhitespace
  let cs := (cs.reverse.dropWhile Char.isWhitespace).reverse
  match cs with
  | [] => none
  | c :: rest =>
    let (neg, body) :=
      if c = '-' then (true, rest)
      else if c = '+' then (false, rest) else (false, c :: rest)
    let ip := body.takeWhile Char.isDigit
    let r1 := body.dropWhile Char.isDigit
    let core? : Option (Rat × List Char) :=
      match r1 with
      | '.' :: r2 =>
        let fp := r2.takeWhile Char.isDigit
        let r3 := r2.dropWhile Char.isDigit
        if ip = [] ∧ fp = [] then none
        else some (((digitsToNat (ip ++ fp) : Rat) / (10 : Rat) ^ fp.length), r3)
      | _ => if ip = [] then none else some ((digitsToNat ip : Rat), r1)
    match core? with
    | none => none
    | some (v, r) => pyFloatExp r (if neg then -v else v)

/-! ### The regular expressions of the extractor -/

/-- Split for `(.*),\s+(.*)$` inside the geolocation pattern: the rightmost
comma followed by at least one whitespace character wins (both `(.*)` are
greedy); `.` never crosses a newline, and `$` also matches just before one
final newline. Returns the two group texts. -/
def geoSplit : List Char → Option (List Char × List Char)
  | [] => none
  | c :: cs =>
    if c = '\n' then none
    else
      match geoSplit cs with
      | some (g1, g2) => some (c :: g1, g2)
      | none =>
        if c = ',' then
          let w2 := cs.takeWhile Char.isWhitespace
          let t := cs.dropWhile Char.isWhitespace
          let g2 := if t.getLast? = some '\n' then t.dropLast else t
          if w2 ≠ [] ∧ ¬ g2.contains '\n' then some ([], g2) else none
        else none

/-- `re.search(r'^Geolocation:\s+(.*),\s+(.*)$', text)`: the literal heading,
one or more whitespace characters, then the two comma-separated groups. -/
def geoMatch (text : String) : Option (String × String) :=
  let cs := text.data
  if "Geolocation:".data.isPrefixOf cs then
    let r := cs.drop 12
    if r.takeWhile Char.isWhitespace = [] then none
    else
      match geoSplit (r.dropWhile Char.isWhitespace) with
      | some (g1, g2) => some (⟨g1⟩, ⟨g2⟩)
      | none => none
  else none

/-- Python's `\w` over the ASCII range. -/
def isWordChar (c : Char) : Bool := c.isAlphanum || c = '_'

/-- The character class `[0-9a-z-]` under `re.IGNORECASE`. -/
def numTokenClass (c : Char) : Bool := c.isAlphanum || c = '-'

/-- After the leading digits of `^[0-9]+[0-9a-z-]*\b`: is there a stop
position with a word boundary, consuming only `[0-9a-z-]` characters?
`prev` is the character just before the current position. -/
def hasBoundaryStop : List Char → Char → Bool
  | [], prev => isWordChar prev
  | c :: cs, prev => (isWordChar prev != isWordChar c) || (numTokenClass c && hasBoundaryStop cs c)

/-- `re.search(r'^[0-9]+[0-9a-z-]*\b', line, re.I)`: a leading house-number
token. -/
def matchesHouseNumber (line : String) : Bool :=
  match line.data with
  | [] => false
  | c :: cs => c.isDigit && hasBoundaryStop cs c

def streetSuffixWords : List String :=
  ["st", "street", "rd", "road", "dr", "drive", "blvd", "boulevard",
   "ave", "avenue", "hwy", "highway"]

/-- `re.search(r'\b(st|street|rd|road|dr|drive|blvd|boulevard|ave|avenue|hwy|highway)\.?$', line, re.I)`:
a trailing street-suffix token (optionally followed by a period, `$` also
matching before one final newline), preceded by a word boundary. -/
def matchesStreetSuffix (line : String) : Bool :=
  let lc0 := line.data.map Char.toLower
  let lc := if lc0.getLast? = some '\n' then lc0.dropLast else lc0
  streetSuffixWords.any (fun w =>
    [w.data, w.data ++ ['.']].any (fun t =>
      t.isSuffixOf lc &&
      (match (lc.take (lc.length - t.length)).getLast? with
       | none => decide (t.length = lc.length)
       | some c => !(isWordChar c))))

/-- `re.search(r'^([0-9]+)\s+guns?\s+involved.$', p_text)` and
`int(match.group(1))`. The final `.` of the pattern is an unescaped
regex dot: it matches any character except a newline; `$` also matches
before one final newline. -/
def parseGunsIntro (s : String) : Option Nat :=
  let cs := s.data
  let ds := cs.takeWhile Char.isDigit
  let r1 := cs.dropWhile Char.isDigit
  if ds = [] then none
  else if r1.takeWhile Char.isWhitespace = [] then none
  else
    match r1.dropWhile Char.isWhitespace with
    | 'g' :: 'u' :: 'n' :: r3 =>
      let r4 := if r3.head? = some 's' then r3.tail else r3
      if r4.takeWhile Char.isWhitespace = [] then none
      else
        match r4.dropWhile Char.isWhitespace with
        | 'i' :: 'n' :: 'v' :: 'o' :: 'l' :: 'v' :: 'e' :: 'd' :: c :: rest =>
          if c ≠ '\n' ∧ (rest = [] ∨ rest = ['\n']) then some (digitsToNat ds) else none
        | _ => none
    | _ => none

/-! ### The document model

`BeautifulSoup(text)` is modelled by the parsed shape the extractor reads
from it: for each titled block (`_find_div_with_title` finds the first `<h2>`
whose text is the title and takes its parent), the pieces the extractor
selects inside that block. -/

/-- `Context = namedtuple('Context', ['address', 'city_or_county', 'state'])`. -/
structure Context where
  address : String
  city_or_county : String
  state : String
deriving DecidableEq

/-- One titled block of the document, as consumed by the extractor:
`div.select('span')` texts, `div.select_one('p')` text (`none` when the block
has no `<p>`, in which case `.text` raises), per-`<ul>` lists of `<li>` texts,
all `<li>` texts, `(a.text, a['href'])` pairs of the anchors, and the
`str(br.previousSibling).strip()` line for each `<br>`. -/
structure Section where
  spans : List String
  para : Option String
  uls : List (List String)
  lis : List String
  anchors : List (String × String)
  brPrevs : List String
deriving DecidableEq

/-- A parsed document: its titled blocks, in document order. -/
structure Doc where
  blocks : List (String × Section)
deriving DecidableEq

/-- `_find_div_with_title(title, soup)`: the first block carrying the title,
or `None`. -/
def _find_div_with_title (title : String) (doc : Doc) : Option Section :=
  (doc.blocks.find? (fun b => b.1 == title)).map (fun b => b.2)

/-! ### The per-section extraction procedures -/

/-- `describes_city_and_state(line)` (closure over `ctx` in
`_extract_location_fields`): `',' in line and line.endswith(ctx.state)`. -/
def describes_city_and_state (ctx : Context) (line : String) : Bool :=
  line.data.contains ',' && ctx.state.data.isSuffixOf line.data

/-- `describes_address(line)`: the exact known address, a leading
house-number token, or a trailing street-suffix token. -/
def describes_address (ctx : Context) (line : String) : Bool :=
  line == ctx.address || matchesHouseNumber line || matchesStreetSuffix line

/-- The span loop of `_extract_location_fields`: skip empty texts; a
geolocation match yields `latitude`/`longitude` (via `float`, whose failure
aborts extraction); a line describing the known city/state or address is
dropped; anything else becomes `location_description`. -/
def locLoop (ctx : Context) : List String → Option (List Field)
  | [] => some []
  | text :: rest =>
    if text = "" then locLoop ctx rest
    else
      match geoMatch text with
      | some (g1, g2) =>
        match pyFloat g1, pyFloat g2 with
        | some la, some lo =>
          (locLoop ctx rest).map
            (fun tail => Field.mk "latitude" (some (.f la)) ::
                         Field.mk "longitude" (some (.f lo)) :: tail)
        | _, _ => none
      | none =>
        if (describes_city_and_state ctx text || describes_address ctx text) then
          locLoop ctx rest
        else
          (locLoop ctx rest).map
            (fun tail => Field.mk "location_description" (some (.s text)) :: tail)

/-- `_extract_location_fields(soup, ctx)` (an absent `Location` block yields
nothing). -/
def _extract_location_fields (ctx : Context) : Option Section → Option (List Field)
  | none => some []
  | some sec => locLoop ctx sec.spans

/-- Serialize the transposed attribute mappings into one `Field` each, with
the given name prefix (`participant_` or `gun_`). -/
def dictFields (pre : String) (ds : List (String × List (Nat × String))) :
    Option (List Field) :=
  ds.mapM (fun kv =>
    (_stringify_dict kv.2).map (fun s => Field.mk (_out_name kv.1 pre) (some (.s s))))

/-- `_extract_participant_fields(soup)`. -/
def _extract_participant_fields : Option Section → Option (List Field)
  | none => some []
  | some sec => (_getdicts sec.uls).bind (dictFields "participant_")

/-- `_extract_incident_characteristics(soup)`: `None` when the block is
absent, else the `<li>` texts joined by `_stringify_list`. -/
def _extract_incident_characteristics : Option Section → Option (Option Val)
  | none => some none
  | some sec => (_stringify_list sec.lis).map (fun s => some (.s s))

/-- `_extract_notes(soup)`: `None` when the block is absent; a block without
a `<p>` makes `div.select_one('p').text` raise. -/
def _extract_notes : Option Section → Option (Option Val)
  | none => some none
  | some sec => sec.para.map (fun t => some (.s t))

/-- `_extract_guns_involved_fields(soup)`: the intro paragraph must match the
guns pattern (`assert match`); then the `<ul>` lists are transposed like the
participants' with a `gun_` prefix. -/
def _extract_guns_involved_fields : Option Section → Option (List Field)
  | none => some []
  | some sec =>
    match sec.para with
    | none => none
    | some ptext =>
      match parseGunsIntro ptext with
      | none => none
      | some n =>
        ((_getdicts sec.uls).bind (dictFields "gun_")).map
          (fun gfields => Field.mk "n_guns_involved" (some (.i n)) :: gfields)

/-- `_extract_sources(soup)`: `None` when absent; else the hrefs of anchors
whose text equals their target, joined by `_stringify_list`. -/
def _extract_sources : Option Section → Option (Option Val)
  | none => some none
  | some sec =>
    (_stringify_list ((sec.anchors.filter (fun a => a.1 == a.2)).map (fun a => a.2))).map
      (fun s => some (.s s))

/-- `_extract_district_fields(soup)`: the orphaned lines before each `<br>`,
parsed as `Label: integer` by `_getdict(lines, apply=int)`. -/
def _extract_district_fields : Option Section → Option (List Field)
  | none => some []
  | some sec =>
    (_getdict sec.brPrevs pyInt).map
      (fun d => d.map (fun kv => Field.mk (_out_name kv.1) (some (.i kv.2))))

/-- The field list `extract_fields` hands to `_normalize` (the bracketed
splice in the source), with any sub-extraction failure propagated. -/
def producedFields (doc : Doc) (ctx : Context) : Option (List Field) := do
  let location_fields ← _extract_location_fields ctx (_find_div_with_title "Location" doc)
  let participant_fields ← _extract_participant_fields (_find_div_with_title "Participants" doc)
  let incident_characteristics ←
    _extract_incident_characteristics (_find_div_with_title "Incident Characteristics" doc)
  let notes ← _extract_notes (_find_div_with_title "Notes" doc)
  let guns ← _extract_guns_involved_fields (_find_div_with_title "Guns Involved" doc)
  let sources ← _extract_sources (_find_div_with_title "Sources" doc)
  let district_fields ← _extract_district_fields (_find_div_with_title "District" doc)
  pure (location_fields ++ participant_fields ++
        [Field.mk "incident_characteristics" incident_characteristics,
         Field.mk "notes" notes] ++ guns ++
        [Field.mk "sources" sources] ++ district_fields)

/-- `Stage2Extractor.extract_fields(text, ctx)`: run every sub-extraction,
then `_normalize`. -/
def extract_fields (doc : Doc) (ctx : Context) : Option (List Field) :=
  (producedFields doc ctx).bind _normalize

/-! ### The fetch session (`stage2_session.py`)

`scraper = cfscrape.create_scraper()` is a `requests.Session` subclass, so
`scraper.get(url)` returns a `requests.Response`. One fetch attempt either
raises a transport-level exception or produces a response; `_get` consumes a
stream of such attempts (its `while True` loop needs one attempt per
iteration; a stream that runs out models the loop still running, `none`). -/

/-- The exception classes distinguished by `_status_from_exception`:
`asyncio.CancelledError`; `aiohttp.ClientOSError` together with whether
`platform.system() == 'Windows' and exc.errno == 10054` holds;
`asyncio.TimeoutError`; anything else. -/
inductive TransportExc where
  | canceled
  | clientOSError (winForciblyClosed : Bool)
  | timeout
  | otherExc
deriving DecidableEq

/-- `_status_from_exception(exc)`. -/
def _status_from_exception : TransportExc → String
  | .canceled => "<canceled>"
  | .clientOSError true => "<conn closed>"
  | .clientOSError false => ""
  | .timeout => "<timed out>"
  | .otherExc => ""

/-- A `requests.Response`: its `status_code`, its `Content-Type` header
(`''` when absent), and its body (already parsed into the document model). -/
structure HttpResp where
  status_code : Nat
  content_type : String
  doc : Doc
deriving DecidableEq

/-- One iteration's outcome of `scraper.get(url)`. -/
inductive Attempt where
  | exc (e : TransportExc)
  | resp (r : HttpResp)
deriving DecidableEq

/-- The exceptions that can escape the session functions. An
`AttributeError` arises from `resp.release` (a `requests.Response` has no
such attribute). `requests.exceptions.HTTPError` comes from
`raise_for_status()`. `aiohttp.ClientResponseError` is the class the 404
handler tests with `isinstance`; nothing in this pipeline raises it.
`extractionError` stands for the extractor's fatal errors
(`AssertionError`, `ValueError`, `AttributeError` inside `extract_fields`). -/
inductive PyExc where
  | transport (e : TransportExc)
  | attributeError
  | requestsHTTPError (status : Nat)
  | aiohttpClientResponseError (code : Nat)
  | notImplementedError
  | extractionError
deriving DecidableEq

/-- `Stage2Session._get(url)` over an attempt stream. Returns the escaping
exception or the returned response, together with how many times the loop
slept (`await asyncio.sleep(wait)` after `_compute_wait`/`_log_retry`).
A transport exception with an empty classification is re-raised (`raise`);
a classified one leads to a sleep and another iteration. A response with
status `< 500` is returned at once. On a status `>= 500` the code runs
`await resp.release()` — but a `requests.Response` has no `release`
attribute, so that line raises `AttributeError` and the loop (and `_get`)
aborts without sleeping or retrying. -/
def _get : List Attempt → Option (Except PyExc HttpResp × Nat)
  | [] => none
  | .exc e :: rest =>
    if _status_from_exception e = "" then some (.error (.transport e), 0)
    else (_get rest).map (fun r => (r.1, r.2 + 1))
  | .resp r :: _ =>
    if r.status_code < 500 then some (.ok r, 0)
    else some (.error .attributeError, 0)

/-- An input row, as used by the session: the detail-page URL plus the
context columns. -/
structure Row where
  incident_url : String
  address : String
  city_or_county : String
  state : String
deriving DecidableEq

/-- `ctype[:ctype.find(';')]` after `lower()`: Python's `find` returns `-1`
when `';'` is absent, and slicing with `-1` drops the last character. -/
def mimetypeOf (ctype : String) : String :=
  let lc := ctype.data.map Char.toLower
  match lc.findIdx? (· == ';') with
  | some i => ⟨lc.take i⟩
  | none => ⟨lc.dropLast⟩

/-- `Stage2Session._get_fields_from_incident_url(row)`: fetch, then
`raise_for_status()` (`requests` raises `HTTPError` for statuses in
[400, 600)), then accept only the `text/htm`/`text/html` mime types, then
extract. -/
def _get_fields_from_incident_url (row : Row) (attempts : List Attempt) :
    Option (Except PyExc (List Field)) :=
  match _get attempts with
  | none => none
  | some (.error e, _) => some (.error e)
  | some (.ok resp, _) =>
    if 400 ≤ resp.status_code then some (.error (.requestsHTTPError resp.status_code))
    else
      let mimetype := mimetypeOf resp.content_type
      if mimetype = "text/htm" ∨ mimetype = "text/html" then
        match extract_fields resp.doc (Context.mk row.address row.city_or_county row.state) with
        | some record => some (.ok record)
        | none => some (.error .extractionError)
      else some (.error .notImplementedError)

/-- `Stage2Session.get_fields_from_incident_url(row)`: re-raises every
exception; the boolean records whether `_log_extraction_failed` printed its
diagnostic (with the URL and traceback). Only an
`aiohttp.ClientResponseError` with `code == 404` is passed over silently. -/
def get_fields_from_incident_url (row : Row) (attempts : List Attempt) :
    Option (Except PyExc (List Field) × Bool) :=
  match _get_fields_from_incident_url row attempts with
  | none => none
  | some (.ok record) => some (.ok record, false)
  | some (.error e) =>
    match e with
    | .aiohttpClientResponseError 404 => some (.error e, false)
    | _ => some (.error e, true)

/-- `_compute_wait(average_wait, rng_base)` with the standard-normal draw
`fuzz` made explicit:
`int(np.ceil(rng_base ** (math.log(average_wait, rng_base) + fuzz)))`. -/
noncomputable def _compute_wait (average_wait rng_base : ℝ) (fuzz : ℝ) : ℤ :=
  ⌈rng_base ^ (Real.logb rng_base average_wait + fuzz)⌉

instance : IsTotal Field fieldLE := ⟨fun a b => le_total a.name.data b.name.data⟩

instance : IsTrans Field fieldLE := ⟨fun _ _ _ h₁ h₂ => le_trans h₁ h₂⟩

instance : IsAntisymm String (fun a b => a.data ≤ b.data) :=
  ⟨fun a b h₁ h₂ => by cases a; cases b; exact congrArg String.mk (le_antisymm h₁ h₂)⟩

/-- The value the produced field list associates with a name (`none` both for
an absent name and for a produced null value) — the reference point for what
`_normalize` must preserve. -/
def lookupValue (fields : List Field) (n : String) : Option Val :=
  match fields.find? (fun f => f.name == n) with
  | some f => f.value
  | none => none

/-- A document whose only titled block is a District block holding the line
`"Gun Type: 5"` before a `<br>`. -/
def cxDoc : Doc := ⟨[("District", ⟨[], none, [], [], [], ["Gun Type: 5"]⟩)]⟩

def cxCtx : Context := ⟨"", "", ""⟩

/-- The record `extract_fields` produces for `cxDoc`: every schema name null
except `gun_type`, which carries the District-parsed integer `5`. -/
def cxRecord : List Field :=
  ALL_FIELD_NAMES.map (fun n => Field.mk n (if n = "gun_type" then some (.i 5) else none))

/-- A document with no titled blocks: every optional section is absent. -/
def emptyDoc : Doc := ⟨[]⟩

def resp503 : HttpResp := ⟨503, "text/html", emptyDoc⟩

def resp200 : HttpResp := ⟨200, "text/html", emptyDoc⟩

def resp404 : HttpResp := ⟨404, "text/html", emptyDoc⟩

def demoRow : Row := ⟨"http://example.org/0", "", "", ""⟩

/-- The guns intro pattern as the specification words it: the literal text
`"<N> gun(s) involved."` with a literal final period (second, spec-side
definition for comparison with the source's regex `parseGunsIntro`). -/
def specGunsIntroPattern (s : String) : Option Nat :=
  let ds := s.data.takeWhile Char.isDigit
  let r := s.data.dropWhile Char.isDigit
  if ds ≠ [] ∧ (r = " gun involved.".data ∨ r = " guns involved.".data) then
    some (digitsToNat ds)
  else none

/-- A "Guns Involved" block whose intro ends in `'!'` instead of `'.'`. -/
def cxGunsSec : Section := ⟨[], some "2 guns involved!", [], [], [], []⟩

/-- The "Guns Involved" block of the scenario: intro `"2 guns involved."`
and two lists, each `["Type: Handgun"]`. -/
def demoGunsSec : Section :=
  ⟨[], some "2 guns involved.", [["Type: Handgun"], ["Type: Handgun"]], [], [], []⟩

/-- The shape of the `<lat>`/`<lon>` pieces in the specification's
`"Geolocation: <lat>, <lon>"` form: an optional minus sign, digits, and an
optional fractional part (spec-side definition). -/
def wfDecimal (s : String) : Bool :=
  let cs := s.data
  let body := if cs.head? = some '-' then cs.tail else cs
  let ip := body.takeWhile Char.isDigit
  let r := body.dropWhile Char.isDigit
  !ip.isEmpty &&
    (r.isEmpty || (r.head? = some '.' && !r.tail.isEmpty && r.tail.all Char.isDigit))

def demoCtx : Context := ⟨"", "", ""⟩

/-- The Location block of the scenario: one span,
`"Geolocation: 38.9, -77.0"`. -/
def demoLocSec : Section := ⟨["Geolocation: 38.9, -77.0"], none, [], [], [], []⟩

/-- The label of a line: the text before its first colon (`none` when the
line has no colon), i.e. `line[:line.find(':')]` when `find` succeeds. -/
def lineLabel (line : String) : Option String :=
  (line.data.findIdx? (· == ':')).map (fun i => ⟨line.data.take i⟩)

/-! ## Theorems -/

theorem intercalate_pair (s a b : String) : String.intercalate s [a, b] = a ++ s ++ b := rfl

/-- `_normalize` fails whenever some produced field name lies outside the
schema. -/
theorem normalize_none_of_unknown (fields : List Field)
    (h : ∃ f ∈ fields, f.name ∉ ALL_FIELD_NAMES) : _normalize fields = none := by
  obtain ⟨f, hf, hn⟩ := h
  match fields, hf with
  | a :: l, hf =>
    have hmemf : f ∈ List.insertionSort fieldLE (a :: l) :=
      (List.perm_insertionSort fieldLE (a :: l)).mem_iff.mpr hf
    have hmem : f.name ∈ (List.insertionSort fieldLE (a :: l)).map Field.name :=
      List.mem_map_of_mem Field.name hmemf
    have hall : ((List.insertionSort fieldLE (a :: l)).map Field.name).all
        (fun n => ALL_FIELD_NAMES.contains n) = false := by
      cases hb : ((List.insertionSort fieldLE (a :: l)).map Field.name).all
          (fun n => ALL_FIELD_NAMES.contains n) with
      | false => rfl
      | true =>
        have := List.all_eq_true.mp hb _ hmem
        exact absurd (List.elem_iff.mp this) hn
    simp only [_normalize]
    rw [hall]
    simp

/-- C3: any produced field whose name is outside `ALL_FIELD_NAMES` makes
`_normalize` (and hence `extract_fields`) fail fatally with the assertion
error, rather than return a record or drop the field. -/
theorem normalize_rejects_unknown_name :
    (∀ (fields : List Field), (∃ f ∈ fields, f.name ∉ ALL_FIELD_NAMES) →
      _normalize fields = none) ∧
    (∀ doc ctx pf, producedFields doc ctx = some pf →
      (∃ f ∈ pf, f.name ∉ ALL_FIELD_NAMES) → extract_fields doc ctx = none) := by
  refine ⟨normalize_none_of_unknown, ?_⟩
  intro doc ctx pf hpf hex
  unfold extract_fields
  rw [hpf, Option.some_bind]
  exact normalize_none_of_unknown pf hex

/-- Witness for `normalize_rejects_unknown_name`. -/
theorem normalize_rejects_unknown_name_witness :
    _normalize [Field.mk "bogus" none] = none :=
  normalize_rejects_unknown_name.1 [Field.mk "bogus" none]
    ⟨Field.mk "bogus" none, by simp, by decide⟩

/-- C4: list serialization fails exactly when an item contains `'||'` and
otherwise joins with `'||'`; mapping serialization fails exactly when a
stringified key or a value contains `'::'` or `'||'` and otherwise joins the
`key::value` pairs with `'||'`. -/
theorem stringify_separator_integrity (lst : List String) (d : List (Nat × String)) :
    (_stringify_list lst = none ↔ ∃ item ∈ lst, pyIn "||" item = true) ∧
    ((∀ item ∈ lst, pyIn "||" item = false) →
      _stringify_list lst = some (String.intercalate "||" lst)) ∧
    (_stringify_dict d = none ↔ ∃ kv ∈ d,
      pyIn "::" (toString kv.1) = true ∨ pyIn "||" (toString kv.1) = true ∨
      pyIn "::" kv.2 = true ∨ pyIn "||" kv.2 = true) ∧
    ((∀ kv ∈ d, pyIn "::" (toString kv.1) = false ∧ pyIn "||" (toString kv.1) = false ∧
        pyIn "::" kv.2 = false ∧ pyIn "||" kv.2 = false) →
      _stringify_dict d = some (String.intercalate "||"
        (d.map (fun kv => toString kv.1 ++ "::" ++ kv.2)))) := by
  refine ⟨?_, ?_, ?_, ?_⟩
  · constructor
    · intro hnone
      cases h : lst.find? (fun item => pyIn "||" item) with
      | none => rw [_stringify_list, h] at hnone; exact absurd hnone (by simp)
      | some v => exact ⟨v, List.mem_of_find?_eq_some h, List.find?_some h⟩
    · rintro ⟨item, hm, hp⟩
      cases h : lst.find? (fun item => pyIn "||" item) with
      | none => exact absurd hp (by simpa using List.find?_eq_none.mp h item hm)
      | some v => rw [_stringify_list, h]
  · intro hno
    have h : lst.find? (fun item => pyIn "||" item) = none :=
      List.find?_eq_none.mpr (fun x hx => by simp [hno x hx])
    rw [_stringify_list, h]
  · constructor
    · intro hnone
      rw [_stringify_dict] at hnone
      cases hk : (d.map (fun kv => toString kv.1)).find?
          (fun key => pyIn "::" key || pyIn "||" key) with
      | some v =>
        rw [List.find?_map] at hk
        obtain ⟨kv, hfind, hv⟩ := Option.map_eq_some'.mp hk
        refine ⟨kv, List.mem_of_find?_eq_some hfind, ?_⟩
        have := List.find?_some hfind
        simp only [Function.comp] at this
        rcases Bool.or_eq_true_iff.mp this with h1 | h1
        · exact Or.inl h1
        · exact Or.inr (Or.inl h1)
      | none =>
        cases hv : (d.map (fun kv => kv.2)).find?
            (fun value => pyIn "::" value || pyIn "||" value) with
        | some v =>
          rw [List.find?_map] at hv
          obtain ⟨kv, hfind, _⟩ := Option.map_eq_some'.mp hv
          refine ⟨kv, List.mem_of_find?_eq_some hfind, ?_⟩
          have := List.find?_some hfind
          simp only [Function.comp] at this
          rcases Bool.or_eq_true_iff.mp this with h1 | h1
          · exact Or.inr (Or.inr (Or.inl h1))
          · exact Or.inr (Or.inr (Or.inr h1))
        | none => rw [hk, hv] at hnone; exact absurd hnone (by simp)
    · rintro ⟨kv, hm, hor⟩
      rw [_stringify_dict]
      cases hk : (d.map (fun kv => toString kv.1)).find?
          (fun key => pyIn "::" key || pyIn "||" key) with
      | some v => rfl
      | none =>
        cases hv : (d.map (fun kv => kv.2)).find?
            (fun value => pyIn "::" value || pyIn "||" value) with
        | some v => rfl
        | none =>
          exfalso
          have hknone := List.find?_eq_none.mp hk (toString kv.1)
            (List.mem_map_of_mem _ hm)
          have hvnone := List.find?_eq_none.mp hv kv.2
            (List.mem_map_of_mem _ hm)
          simp only [Bool.or_eq_true_iff, not_or] at hknone hvnone
          rcases hor with h | h | h | h
          · exact hknone.1 h
          · exact hknone.2 h
          · exact hvnone.1 h
          · exact hvnone.2 h
  · intro hno
    have hk : (d.map (fun kv => toString kv.1)).find?
        (fun key => pyIn "::" key || pyIn "||" key) = none := by
      refine List.find?_eq_none.mpr (fun x hx => ?_)
      obtain ⟨kv, hkv, rfl⟩ := List.mem_map.mp hx
      simp [(hno kv hkv).1, (hno kv hkv).2.1]
    have hv : (d.map (fun kv => kv.2)).find?
        (fun value => pyIn "::" value || pyIn "||" value) = none := by
      refine List.find?_eq_none.mpr (fun x hx => ?_)
      obtain ⟨kv, hkv, rfl⟩ := List.mem_map.mp hx
      simp [(hno kv hkv).2.2.1, (hno kv hkv).2.2.2]
    rw [_stringify_dict, hk, hv]
    dsimp only
    congr 1
    rw [List.zip_map', List.map_map]
    congr 1

theorem getdictAux_append (apply : String → Option α) (xs ys : List String)
    (d : List (String × α)) :
    _getdictAux apply (xs ++ ys) d =
      (_getdictAux apply xs d).bind (fun d' => _getdictAux apply ys d') := by
  induction xs generalizing d with
  | nil => simp [_getdictAux]
  | cons line rest ih =>
    simp only [List.cons_append, _getdictAux]
    by_cases hline : line = ""
    · rw [if_pos hline, if_pos hline]
      exact ih d
    · rw [if_neg hline, if_neg hline]
      cases hidx : line.data.findIdx? (· == ':') with
      | none => simp
      | some index =>
        dsimp only
        by_cases hkey : (d.map Prod.fst).contains ⟨line.data.take index⟩
        · rw [if_pos hkey, if_pos hkey]; simp
        · rw [if_neg hkey, if_neg hkey]
          cases apply ⟨line.data.drop (index + 2)⟩ with
          | none => simp
          | some v => exact ih _

theorem getdictAux_poison (apply : String → Option α) :
    ∀ (lines : List String) (d : List (String × α)) (k : String),
      k ∈ d.map Prod.fst → (∃ line ∈ lines, line ≠ "" ∧ lineLabel line = some k) →
      _getdictAux apply lines d = none := by
  intro lines
  induction lines with
  | nil => rintro d k _ ⟨w, hw, _⟩; exact absurd hw (by simp)
  | cons line rest ih =>
    rintro d k hk ⟨w, hw, hne, hlab⟩
    rw [_getdictAux]
    by_cases hline : line = ""
    · rw [if_pos hline]
      rcases List.mem_cons.mp hw with rfl | hw'
      · exact absurd hline hne
      · exact ih d k hk ⟨w, hw', hne, hlab⟩
    · rw [if_neg hline]
      cases hidx : line.data.findIdx? (· == ':') with
      | none => rfl
      | some index =>
        dsimp only
        by_cases hkey : (d.map Prod.fst).contains ⟨line.data.take index⟩
        · rw [if_pos hkey]
        · rw [if_neg hkey]
          rcases List.mem_cons.mp hw with rfl | hw'
          · exfalso
            rw [lineLabel, hidx, Option.map_some'] at hlab
            have : (⟨w.data.take index⟩ : String) = k := by
              exact Option.some.inj hlab
            rw [this] at hkey
            exact hkey (List.elem_iff.mpr hk)
          · cases apply ⟨line.data.drop (index + 2)⟩ with
            | none => rfl
            | some v =>
              refine ih _ k ?_ ⟨w, hw', hne, hlab⟩
              rw [List.map_append]
              exact List.mem_append_left _ hk

theorem getdictAux_nodup (apply : String → Option α) :
    ∀ (lines : List String) (d r : List (String × α)),
      (d.map Prod.fst).Nodup → _getdictAux apply lines d = some r →
      (r.map Prod.fst).Nodup := by
  intro lines
  induction lines with
  | nil =>
    intro d r hd hr
    rw [_getdictAux] at hr
    exact Option.some.inj hr ▸ hd
  | cons line rest ih =>
    intro d r hd hr
    rw [_getdictAux] at hr
    by_cases hline : line = ""
    · rw [if_pos hline] at hr
      exact ih d r hd hr
    · rw [if_neg hline] at hr
      cases hidx : line.data.findIdx? (· == ':') with
      | none => rw [hidx] at hr; exact absurd hr (by simp)
      | some index =>
        rw [hidx] at hr
        dsimp only at hr
        by_cases hkey : (d.map Prod.fst).contains ⟨line.data.take index⟩
        · rw [if_pos hkey] at hr; exact absurd hr (by simp)
        · rw [if_neg hkey] at hr
          cases happ : apply ⟨line.data.drop (index + 2)⟩ with
          | none => rw [happ] at hr; exact absurd hr (by simp)
          | some v =>
            rw [happ] at hr
            refine ih _ r ?_ hr
            rw [List.map_append]
            refine List.Nodup.append hd (by simp) ?_
            intro x hx hx'
            rcases List.mem_singleton.mp (by simpa using hx') with rfl
            exact hkey (List.elem_iff.mpr hx)

/-- C10: a duplicated label (the text before the first colon) among the
non-empty lines of one group makes `_getdict` fail with the assertion error
(`assert key not in d`) — under any `apply`, hence in the participant, gun
and district uses alike — and every successfully built group mapping holds
each label at most once. -/
theorem getdict_duplicate_label_aborts :
    (∀ (α : Type) (apply : String → Option α) (l₁ l₂ l₃ : List String) (a b k : String),
      a ≠ "" → b ≠ "" → lineLabel a = some k → lineLabel b = some k →
      _getdict (l₁ ++ a :: (l₂ ++ b :: l₃)) apply = none) ∧
    (∀ (α : Type) (apply : String → Option α) (lines : List String) (d : List (String × α)),
      _getdict lines apply = some d → (d.map Prod.fst).Nodup) := by
  constructor
  · intro α apply l₁ l₂ l₃ a b k ha hb hla hlb
    rw [_getdict, getdictAux_append]
    cases h₁ : _getdictAux apply l₁ [] with
    | none => rfl
    | some d₁ =>
      rw [Option.some_bind, _getdictAux, if_neg ha]
      obtain ⟨i, hidx, htake⟩ := Option.map_eq_some'.mp hla
      rw [hidx]
      dsimp only
      by_cases hkey : (d₁.map Prod.fst).contains ⟨a.data.take i⟩
      · rw [if_pos hkey]
      · rw [if_neg hkey]
        cases apply ⟨a.data.drop (i + 2)⟩ with
        | none => rfl
        | some v =>
          refine getdictAux_poison apply _ _ k ?_ ?_
          · rw [List.map_append, htake]
            exact List.mem_append_right _ (by simp)
          · exact ⟨b, List.mem_append_right _ (List.mem_cons_self _ _), hb, hlb⟩
  · intro α apply lines d h
    exact getdictAux_nodup apply lines [] d (by simp) h

/-- Witness for `getdict_duplicate_label_aborts`. -/
theorem getdict_duplicate_label_aborts_witness :
    _getdict ["Type: Handgun", "Type: Rifle"] (fun v => some v) = none ∧
    (["Type"] : List String).Nodup := by
  constructor
  · exact getdict_duplicate_label_aborts.1 String (fun v => some v) [] [] []
      "Type: Handgun" "Type: Rifle" "Type" (by decide) (by decide) (by decide) (by decide)
  · exact getdict_duplicate_label_aborts.2 String (fun v => some v) ["Type: Handgun"]
      [("Type", "Handgun")] (by decide)

theorem insertIdx_boundary (done pending : List Field) (x : Field) :
    (done ++ pending).insertIdx done.length x = done ++ x :: pending := by
  induction done with
  | nil => rfl
  | cons d ds ih => simp [List.insertIdx_succ_cons, ih]

theorem pyInsert_at_boundary (done pending : List Field) (x : Field) :
    pyInsert (done ++ pending) done.length x = done ++ x :: pending := by
  rw [pyInsert, if_pos (by simp), insertIdx_boundary]

theorem mem_pyInsert_self (l : List Field) (i : Nat) (x : Field) : x ∈ pyInsert l i x := by
  rw [pyInsert]
  split
  · exact (List.mem_insertIdx (by assumption)).mpr (Or.inl rfl)
  · exact List.mem_append_right _ (by simp)

theorem mem_pyInsert_of_mem (l : List Field) (i : Nat) (x y : Field) (h : y ∈ l) :
    y ∈ pyInsert l i x := by
  rw [pyInsert]
  split
  · exact (List.mem_insertIdx (by assumption)).mpr (Or.inr h)
  · exact List.mem_append_left _ h

theorem mem_insertMissing_of_mem (fnames : List String) :
    ∀ (remaining : List String) (i : Nat) (fields : List Field) (y : Field),
      y ∈ fields → y ∈ insertMissing fnames remaining i fields := by
  intro remaining
  induction remaining with
  | nil => intro i fields y h; exact h
  | cons name rest ih =>
    intro i fields y h
    rw [insertMissing]
    split
    · exact ih _ _ y h
    · exact ih _ _ y (mem_pyInsert_of_mem _ _ _ y h)

theorem insertMissing_mem_dummy (fnames : List String) :
    ∀ (remaining : List String) (i : Nat) (fields : List Field) (n : String),
      n ∈ remaining → fnames.contains n = false →
      Field.mk n none ∈ insertMissing fnames remaining i fields := by
  intro remaining
  induction remaining with
  | nil => intro i fields n hn _; exact absurd hn (by simp)
  | cons name rest ih =>
    intro i fields n hn hc
    rw [insertMissing]
    rcases List.mem_cons.mp hn with rfl | hn'
    · rw [if_neg (by simpa using hc)]
      exact mem_insertMissing_of_mem fnames rest _ _ _ (mem_pyInsert_self _ _ _)
    · split
      · exact ih _ _ n hn' hc
      · exact ih _ _ n hn' hc

theorem find?_name_eq_self (l : List Field) (f : Field)
    (hnd : (l.map Field.name).Nodup) (hf : f ∈ l) :
    l.find? (fun g => g.name == f.name) = some f := by
  induction l with
  | nil => cases hf
  | cons g gs ih =>
    have hnd2 : (g.name :: gs.map Field.name).Nodup := by simpa using hnd
    rcases List.mem_cons.mp hf with rfl | hf'
    · simp [List.find?]
    · have hb : (g.name == f.name) = false := by
        simp only [beq_eq_false_iff_ne, ne_eq]
        intro he
        exact (List.nodup_cons.mp hnd2).1 (he ▸ List.mem_map_of_mem Field.name hf')
      simp only [List.find?, hb]
      exact ih (List.nodup_cons.mp hnd2).2 hf'

/-- The dummy-insertion loop, characterized: walking the (nodup) remaining
names with the produced (sorted) fields split as `done ++ pending`, where the
pending names form a sublist of the remaining names, yields `done` followed
by one field per remaining name carrying the produced value (or null). -/
theorem insertMissing_spec (fnames : List String) :
    ∀ (remaining : List String) (done pending : List Field),
      remaining.Nodup →
      (pending.map Field.name).Sublist remaining →
      (∀ n ∈ remaining, (fnames.contains n = true ↔ n ∈ pending.map Field.name)) →
      insertMissing fnames remaining done.length (done ++ pending) =
        done ++ remaining.map (fun n => Field.mk n (lookupValue pending n)) := by
  intro remaining
  induction remaining with
  | nil =>
    intro done pending _ hsub _
    have hpe : pending = [] := by simpa using List.sublist_nil.mp hsub
    subst hpe
    simp [insertMissing]
  | cons name rest ih =>
    intro done pending hnd hsub hiff
    have hnamem : name ∉ rest := (List.nodup_cons.mp hnd).1
    rw [insertMissing]
    by_cases hc : fnames.contains name = true
    · -- `name` was produced: `pending` must begin with it
      have hpmem : name ∈ pending.map Field.name := (hiff name (by simp)).mp hc
      rcases List.sublist_cons_iff.mp hsub with hsub' | ⟨tl, heq, htl⟩
      · exact absurd (hsub'.subset hpmem) hnamem
      · match pending, heq with
        | p :: ps, heq =>
          have hphead : p.name = name := by simpa using congrArg List.head? heq
          have hps : ps.map Field.name = tl := by simpa using congrArg List.tail heq
          rw [if_pos hc]
          have hsplit : done ++ p :: ps = (done ++ [p]) ++ ps := by simp
          rw [hsplit, show done.length + 1 = (done ++ [p]).length by simp]
          rw [ih (done ++ [p]) ps (List.nodup_cons.mp hnd).2 (hps ▸ htl) ?_]
          · have hbp : (p.name == name) = true := by simp [hphead]
            have hlv : lookupValue (p :: ps) name = p.value := by
              simp only [lookupValue, List.find?, hbp]
            have hrest : ∀ n ∈ rest,
                Field.mk n (lookupValue ps n) = Field.mk n (lookupValue (p :: ps) n) := by
              intro n hn
              have hb : (p.name == n) = false := by
                simp only [beq_eq_false_iff_ne, ne_eq, hphead]
                rintro rfl
                exact hnamem hn
              simp only [lookupValue, List.find?, hb]
            rw [List.map_congr_left hrest]
            simp only [List.map_cons, hlv]
            rw [← hphead]
            simp
          · intro n hn
            have hne : n ≠ name := fun he => hnamem (he ▸ hn)
            rw [hiff n (List.mem_cons_of_mem _ hn)]
            simp [hphead, hne]
    · -- `name` was not produced: insert the dummy at the boundary
      have hnfalse : fnames.contains name = false := by
        cases h : fnames.contains name with
        | false => rfl
        | true => exact absurd h hc
      have hnmem : name ∉ pending.map Field.name := fun h => hc ((hiff name (by simp)).mpr h)
      rcases List.sublist_cons_iff.mp hsub with hsub' | ⟨tl, heq, _⟩
      · rw [if_neg (by simpa using hnfalse), pyInsert_at_boundary]
        have hsplit : done ++ Field.mk name none :: pending =
            (done ++ [Field.mk name none]) ++ pending := by simp
        rw [hsplit, show done.length + 1 = (done ++ [Field.mk name none]).length by simp]
        rw [ih (done ++ [Field.mk name none]) pending (List.nodup_cons.mp hnd).2 hsub' ?_]
        · have hlv : lookupValue pending name = none := by
            rw [lookupValue]
            have : pending.find? (fun f => f.name == name) = none := by
              refine List.find?_eq_none.mpr (fun g hg hb => ?_)
              exact hnmem (beq_iff_eq.mp hb ▸ List.mem_map_of_mem Field.name hg)
            rw [this]
          simp [hlv]
        · intro n hn
          have : n ≠ name := fun he => hnamem (he ▸ hn)
          exact hiff n (List.mem_cons_of_mem _ hn)
      · exact absurd (heq ▸ List.mem_cons_self name tl :
          name ∈ pending.map Field.name) hnmem

/-- C1 (amended): for distinct produced names within the schema,
`_normalize` returns the schema-complete sorted record — every schema name
exactly once, null for absent names, produced values kept; and for any
successful extraction, every schema name that no section produced is paired
with null. (The original claim's stronger reading — that a document lacking
a section always has that section's names null — fails when another section
produces the same name; see `normalize_schema_counterexample`.) -/
theorem normalize_schema_complete :
    (∀ (fields : List Field), fields ≠ [] → (fields.map Field.name).Nodup →
      (∀ f ∈ fields, f.name ∈ ALL_FIELD_NAMES) →
      ∃ r, _normalize fields = some r ∧
        r.map Field.name = ALL_FIELD_NAMES ∧
        r.length = ALL_FIELD_NAMES.length ∧
        (r.map Field.name).Sorted (· ≤ ·) ∧
        (∀ n ∈ ALL_FIELD_NAMES, (r.map Field.name).count n = 1) ∧
        (∀ n ∈ ALL_FIELD_NAMES, n ∉ fields.map Field.name → Field.mk n none ∈ r) ∧
        (∀ f ∈ fields, f ∈ r)) ∧
    (∀ doc ctx pf r, producedFields doc ctx = some pf → extract_fields doc ctx = some r →
      ∀ n ∈ ALL_FIELD_NAMES, n ∉ pf.map Field.name → Field.mk n none ∈ r) := by
  constructor
  · intro fields hne hnd hsub
    cases fields with
    | nil => exact absurd rfl hne
    | cons a l =>
      have hperm : List.Perm (List.insertionSort fieldLE (a :: l)) (a :: l) :=
        List.perm_insertionSort fieldLE (a :: l)
      have hndS : ((List.insertionSort fieldLE (a :: l)).map Field.name).Nodup :=
        ((hperm.map Field.name).nodup_iff).mpr hnd
      have hsubN : (List.insertionSort fieldLE (a :: l)).map Field.name ⊆ ALL_FIELD_NAMES := by
        intro n hn
        obtain ⟨f, hf, rfl⟩ := List.mem_map.mp hn
        exact hsub f (hperm.subset hf)
      have hall : ((List.insertionSort fieldLE (a :: l)).map Field.name).all
          (fun n => ALL_FIELD_NAMES.contains n) = true :=
        List.all_eq_true.mpr (fun n hn => List.elem_iff.mpr (hsubN hn))
      have hnamesSorted : ((List.insertionSort fieldLE (a :: l)).map Field.name).Sorted
          (fun x y : String => x.data ≤ y.data) :=
        List.Pairwise.map Field.name (fun _ _ h => h)
          (List.sorted_insertionSort fieldLE (a :: l))
      have hallSorted : ALL_FIELD_NAMES.Sorted (fun x y : String => x.data ≤ y.data) := by
        decide
      have hallNodup : ALL_FIELD_NAMES.Nodup := by decide
      have hsl : ((List.insertionSort fieldLE (a :: l)).map Field.name).Sublist
          ALL_FIELD_NAMES :=
        List.sublist_of_subperm_of_sorted (hndS.subperm hsubN) hnamesSorted hallSorted
      have hiff : ∀ n ∈ ALL_FIELD_NAMES,
          (((List.insertionSort fieldLE (a :: l)).map Field.name).contains n = true ↔
            n ∈ (List.insertionSort fieldLE (a :: l)).map Field.name) :=
        fun n _ => List.elem_iff
      have hIM := insertMissing_spec ((List.insertionSort fieldLE (a :: l)).map Field.name)
        ALL_FIELD_NAMES [] (List.insertionSort fieldLE (a :: l)) hallNodup hsl hiff
      simp only [List.nil_append, List.length_nil] at hIM
      have hmapname : ((ALL_FIELD_NAMES.map (fun n =>
          Field.mk n (lookupValue (List.insertionSort fieldLE (a :: l)) n))).map Field.name) =
          ALL_FIELD_NAMES := by
        rw [List.map_map]
        exact List.map_id' ALL_FIELD_NAMES
      refine ⟨ALL_FIELD_NAMES.map (fun n =>
        Field.mk n (lookupValue (List.insertionSort fieldLE (a :: l)) n)),
        ?_, hmapname, ?_, ?_, ?_, ?_, ?_⟩
      · simp only [_normalize]
        rw [if_pos hall, hIM, if_pos (by simp)]
      · rw [List.length_map, hmapname.symm, List.length_map]
      · rw [hmapname]
        exact hallSorted.imp (fun h => String.le_iff_toList_le.mpr h)
      · intro n hn
        rw [hmapname]
        exact List.count_eq_one_of_mem hallNodup hn
      · intro n hn habs
        have hlv : lookupValue (List.insertionSort fieldLE (a :: l)) n = none := by
          have hfind : (List.insertionSort fieldLE (a :: l)).find?
              (fun f => f.name == n) = none :=
            List.find?_eq_none.mpr (fun g hg hb =>
              habs (beq_iff_eq.mp hb ▸ List.mem_map_of_mem Field.name (hperm.subset hg)))
          rw [lookupValue, hfind]
        exact List.mem_map.mpr ⟨n, hn, by rw [hlv]⟩
      · intro f hf
        refine List.mem_map.mpr ⟨f.name, hsub f hf, ?_⟩
        rw [lookupValue, find?_name_eq_self _ f hndS (hperm.mem_iff.mpr hf)]
  · intro doc ctx pf r hpf hext n hn habs
    rw [extract_fields, hpf, Option.some_bind] at hext
    cases pf with
    | nil => simp [_normalize] at hext
    | cons a l =>
      simp only [_normalize] at hext
      have hnmem : n ∉ (List.insertionSort fieldLE (a :: l)).map Field.name := fun hmem =>
        habs (((List.perm_insertionSort fieldLE (a :: l)).map Field.name).subset hmem)
      have hcont : ((List.insertionSort fieldLE (a :: l)).map Field.name).contains n =
          false := by
        cases hcb : ((List.insertionSort fieldLE (a :: l)).map Field.name).contains n with
        | false => rfl
        | true => exact absurd (List.elem_iff.mp hcb) hnmem
      split at hext
      · split at hext
        · rw [← Option.some.inj hext]
          exact insertMissing_mem_dummy _ ALL_FIELD_NAMES _ _ n hn hcont
        · exact absurd hext (by simp)
      · exact absurd hext (by simp)

/-- Counterexample to the universally quantified section-null reading of C1:
`cxDoc` has no "Guns Involved" block, yet its District line `"Gun Type: 5"`
produces the schema name `gun_type`, so the extracted record carries
`gun_type = 5` instead of null. -/
theorem normalize_schema_counterexample :
    _find_div_with_title "Guns Involved" cxDoc = none ∧
    extract_fields cxDoc cxCtx = some cxRecord ∧
    Field.mk "gun_type" (some (.i 5)) ∈ cxRecord ∧
    Field.mk "gun_type" none ∉ cxRecord := by decide

/-- Witness for `normalize_schema_complete`. -/
theorem normalize_schema_complete_witness :
    ∃ r, _normalize [Field.mk "notes" none] = some r ∧ Field.mk "latitude" none ∈ r := by
  obtain ⟨r, h1, _, _, _, _, h6, _⟩ :=
    normalize_schema_complete.1 [Field.mk "notes" none] (by simp) (by simp) (by decide)
  exact ⟨r, h1, h6 "latitude" (by decide) (by decide)⟩

/-- Witness for `stringify_separator_integrity`. -/
theorem stringify_separator_integrity_witness :
    _stringify_list ["North Ave", "Main St"] = some "North Ave||Main St" ∧
    _stringify_dict [(0, "Handgun"), (1, "Rifle")] = some "0::Handgun||1::Rifle" := by
  constructor
  · rw [(stringify_separator_integrity ["North Ave", "Main St"] []).2.1 (by decide)]
    rfl
  · rw [(stringify_separator_integrity [] [(0, "Handgun"), (1, "Rifle")]).2.2.2 (by decide)]
    rfl

/-- `_get` can only escape with a transport exception or the
`resp.release` `AttributeError`; in particular it never produces an
`aiohttp.ClientResponseError`. -/
theorem get_no_aiohttp_error :
    ∀ (attempts : List Attempt) (r : Except PyExc HttpResp × Nat),
      _get attempts = some r → ∀ c, r.1 ≠ .error (.aiohttpClientResponseError c) := by
  intro attempts
  induction attempts with
  | nil => intro r h c; simp [_get] at h
  | cons a rest ih =>
    intro r h c
    cases a with
    | exc e =>
      rw [_get] at h
      split at h
      · rw [← Option.some.inj h]; simp
      · obtain ⟨r', hr', rfl⟩ := Option.map_eq_some'.mp h
        exact ih r' hr' c
    | resp rr =>
      rw [_get] at h
      split at h
      · rw [← Option.some.inj h]; simp
      · rw [← Option.some.inj h]; simp

/-- C2: the retry loop never survives a server error. On the first status
`>= 500` response, `resp.release` (absent on a `requests.Response`) raises
`AttributeError`: `_get` aborts with zero sleeps instead of releasing and
retrying, and `fetchRecord` surfaces (and logs) that error — the 503, 503,
200 scenario never reaches the 200. -/
theorem server_error_raises_attribute_error :
    _get [.resp resp503, .resp resp503, .resp resp200] =
      some (.error .attributeError, 0) ∧
    get_fields_from_incident_url demoRow [.resp resp503, .resp resp503, .resp resp200] =
      some (.error .attributeError, true) ∧
    _get [.resp resp200] = some (.ok resp200, 0) := by decide

/-- C5: a 404 response makes `raise_for_status` raise
`requests.exceptions.HTTPError`, which is *not* an
`aiohttp.ClientResponseError`, so `get_fields_from_incident_url` logs the
"Extraction failed" diagnostic for the URL (the boolean `true`) before
re-raising; the silent 404 branch can never fire because nothing in the
pipeline raises `aiohttp.ClientResponseError`. -/
theorem fetch_404_logged_not_benign :
    get_fields_from_incident_url demoRow [.resp resp404] =
      some (.error (.requestsHTTPError 404), true) ∧
    (∀ (row : Row) (attempts : List Attempt) (res : Except PyExc (List Field)),
      _get_fields_from_incident_url row attempts = some res →
      ∀ c, res ≠ .error (.aiohttpClientResponseError c)) := by
  constructor
  · decide
  · intro row attempts res h c
    rw [_get_fields_from_incident_url] at h
    cases hg : _get attempts with
    | none => rw [hg] at h; exact absurd h (by simp)
    | some pr =>
      obtain ⟨er, sl⟩ := pr
      rw [hg] at h
      cases er with
      | error e =>
        dsimp only at h
        rw [← Option.some.inj h]
        intro heq
        exact absurd heq (by simpa using get_no_aiohttp_error attempts (.error e, sl) hg c)
      | ok resp =>
        dsimp only at h
        split at h
        · rw [← Option.some.inj h]; simp
        · split at h
          · cases hx : extract_fields resp.doc
                (Context.mk row.address row.city_or_county row.state) with
            | some rec => rw [hx] at h; rw [← Option.some.inj h]; simp
            | none => rw [hx] at h; rw [← Option.some.inj h]; simp
          · rw [← Option.some.inj h]; simp

/-- C6: a transport-level exception from the GET is retried (status tag,
sleep, loop re-entry) exactly when it is a cancellation, the Windows
"connection forcibly closed" `ClientOSError`, or a timeout; every other
exception is re-raised immediately, with no sleep. -/
theorem transport_retry_classification (e : TransportExc) (rest : List Attempt) :
    (_status_from_exception e ≠ "" ↔
      (e = .canceled ∨ e = .clientOSError true ∨ e = .timeout)) ∧
    ((e = .canceled ∨ e = .clientOSError true ∨ e = .timeout) →
      _get (.exc e :: rest) = (_get rest).map (fun r => (r.1, r.2 + 1))) ∧
    (¬(e = .canceled ∨ e = .clientOSError true ∨ e = .timeout) →
      _get (.exc e :: rest) = some (.error (.transport e), 0)) := by
  refine ⟨?_, ?_, ?_⟩
  · cases e with
    | canceled => decide
    | clientOSError b => cases b <;> decide
    | timeout => decide
    | otherExc => decide
  · intro h
    rcases h with rfl | rfl | rfl
    · rw [_get, if_neg (by decide)]
    · rw [_get, if_neg (by decide)]
    · rw [_get, if_neg (by decide)]
  · intro h
    cases e with
    | canceled => exact absurd (Or.inl rfl) h
    | timeout => exact absurd (Or.inr (Or.inr rfl)) h
    | clientOSError b =>
      cases b with
      | true => exact absurd (Or.inr (Or.inl rfl)) h
      | false => rw [_get]; simp [_status_from_exception]
    | otherExc => rw [_get]; simp [_status_from_exception]

/-- Witness for `transport_retry_classification`. -/
theorem transport_retry_classification_witness :
    _get [.exc .canceled, .resp resp200] = some (.ok resp200, 1) ∧
    _get [.exc .otherExc, .resp resp200] = some (.error (.transport .otherExc), 0) := by
  constructor
  · rw [(transport_retry_classification .canceled [.resp resp200]).2.1 (Or.inl rfl)]
    decide
  · exact (transport_retry_classification .otherExc [.resp resp200]).2.2 (by decide)

/-- Counterexample to C7 as stated: the regex `^([0-9]+)\s+guns?\s+involved.$`
leaves its final `.` unescaped, so the intro `"2 guns involved!"` — which
does not match the spec's literal pattern `"<N> gun(s) involved."` — is
accepted, and extraction succeeds with `n_guns_involved = 2` instead of
failing fatally. -/
theorem guns_intro_pattern_counterexample :
    specGunsIntroPattern "2 guns involved!" = none ∧
    _extract_guns_involved_fields (some cxGunsSec) =
      some [Field.mk "n_guns_involved" (some (.i 2))] := by decide

/-- C7 (amended): with a "Guns Involved" block present, extraction fails
fatally exactly when the intro paragraph is missing or fails the regex
`^([0-9]+)\s+guns?\s+involved.$` (whose unescaped `.` accepts any final
non-newline character, with an optional trailing newline); on a match,
`n_guns_involved = N` and the lists are transposed into `gun_`-prefixed
fields; every intro of the spec's literal form `"<N> gun(s) involved."` is
accepted with the same `N`; and the two-handgun scenario yields
`gun_type = "0::Handgun||1::Handgun"`. -/
theorem guns_involved_extraction (sec : Section) :
    (sec.para = none → _extract_guns_involved_fields (some sec) = none) ∧
    (∀ t, sec.para = some t → parseGunsIntro t = none →
      _extract_guns_involved_fields (some sec) = none) ∧
    (∀ t n, sec.para = some t → parseGunsIntro t = some n →
      _extract_guns_involved_fields (some sec) =
        ((_getdicts sec.uls).bind (dictFields "gun_")).map
          (fun gfields => Field.mk "n_guns_involved" (some (.i n)) :: gfields)) ∧
    (∀ t n, specGunsIntroPattern t = some n → parseGunsIntro t = some n) ∧
    (_extract_guns_involved_fields (some demoGunsSec) =
      some [Field.mk "n_guns_involved" (some (.i 2)),
            Field.mk "gun_type" (some (.s "0::Handgun||1::Handgun"))]) := by
  refine ⟨?_, ?_, ?_, ?_, by decide⟩
  · intro h
    simp only [_extract_guns_involved_fields, h]
  · intro t h hp
    simp only [_extract_guns_involved_fields, h, hp]
  · intro t n h hp
    simp only [_extract_guns_involved_fields, h, hp]
  · intro t n h
    rw [specGunsIntroPattern] at h
    split at h
    · next hc =>
      obtain ⟨hne, hr⟩ := hc
      simp only [parseGunsIntro]
      rcases hr with hr | hr <;>
        (rw [hr, if_neg hne]; exact h)
    · exact absurd h (by simp)

/-- Witness for `guns_involved_extraction`. -/
theorem guns_involved_extraction_witness :
    _extract_guns_involved_fields (some demoGunsSec) =
      some [Field.mk "n_guns_involved" (some (.i 2)),
            Field.mk "gun_type" (some (.s "0::Handgun||1::Handgun"))] := by
  rw [(guns_involved_extraction demoGunsSec).2.2.1 "2 guns involved." 2 rfl (by decide)]
  decide

theorem takeWhile_eq_nil_of_neg (p : α → Bool) (l : List α)
    (h : ∀ c ∈ l, p c = false) : l.takeWhile p = [] := by
  cases l with
  | nil => rfl
  | cons a l => rw [List.takeWhile_cons, if_neg (by simp [h a (List.mem_cons_self _ _)])]

theorem dropWhile_eq_self_of_neg (p : α → Bool) (l : List α)
    (h : ∀ c ∈ l, p c = false) : l.dropWhile p = l := by
  cases l with
  | nil => rfl
  | cons a l =>
    exact List.dropWhile_cons_of_neg (by simp [h a (List.mem_cons_self _ _)])

theorem contains_eq_false_of_not_mem (l : List Char) (c : Char)
    (h : ∀ x ∈ l, x ≠ c) : l.contains c = false := by
  cases hcb : l.contains c with
  | false => rfl
  | true => exact absurd rfl (h c (List.elem_iff.mp hcb))

/-- A decimal digit is not whitespace, a comma, or a newline. -/
theorem digit_benign (c : Char) (h : c.isDigit = true) :
    c.isWhitespace = false ∧ c ≠ ',' ∧ c ≠ '\n' := by
  refine ⟨?_, ?_, ?_⟩
  · cases hw : c.isWhitespace with
    | false => rfl
    | true =>
      have hw' : c = ' ' ∨ c = '\t' ∨ c = '\r' ∨ c = '\n' := by
        simpa [Char.isWhitespace, or_assoc] using hw
      rcases hw' with rfl | rfl | rfl | rfl <;> exact absurd h (by decide)
  · rintro rfl; exact absurd h (by decide)
  · rintro rfl; exact absurd h (by decide)

/-- Every character of a well-formed decimal string is benign for the
geolocation split, and the string is non-empty. -/
theorem wfDecimal_chars (s : String) (h : wfDecimal s = true) :
    s.data ≠ [] ∧ ∀ c ∈ s.data, c.isWhitespace = false ∧ c ≠ ',' ∧ c ≠ '\n' := by
  rw [wfDecimal] at h
  obtain ⟨hip, hrest⟩ := Bool.and_eq_true_iff.mp h
  constructor
  · intro hnil
    rw [hnil] at hip
    simp at hip
  · intro c hc
    have hbody : ∀ x, x ∈ (if s.data.head? = some '-' then s.data.tail else s.data) →
        x.isWhitespace = false ∧ x ≠ ',' ∧ x ≠ '\n' := by
      intro x hx
      have hx2 : x ∈ (if s.data.head? = some '-' then s.data.tail else s.data).takeWhile
            Char.isDigit ++
          (if s.data.head? = some '-' then s.data.tail else s.data).dropWhile Char.isDigit := by
        rw [List.takeWhile_append_dropWhile]
        exact hx
      rcases List.mem_append.mp hx2 with hx3 | hx3
      · exact digit_benign x (List.mem_takeWhile_imp hx3)
      · rcases Bool.or_eq_true_iff.mp hrest with hr | hr
        · rw [List.isEmpty_iff.mp hr] at hx3
          cases hx3
        · obtain ⟨hr1, hr2⟩ := Bool.and_eq_true_iff.mp hr
          obtain ⟨hdot, _⟩ := Bool.and_eq_true_iff.mp hr1
          cases hdw : (if s.data.head? = some '-' then s.data.tail else s.data).dropWhile
              Char.isDigit with
          | nil => rw [hdw] at hx3; cases hx3
          | cons d rt =>
            have hd : d = '.' := by
              rw [hdw] at hdot
              simpa using hdot
            rw [hdw] at hx3 hr2
            rcases List.mem_cons.mp hx3 with rfl | hx4
            · rw [hd]; exact ⟨by decide, by decide, by decide⟩
            · exact digit_benign x (List.all_eq_true.mp (by simpa using hr2) x hx4)
    by_cases hminus : s.data.head? = some '-'
    · cases hcs : s.data with
      | nil => rw [hcs] at hc; cases hc
      | cons c0 cs0 =>
        have hc0 : c0 = '-' := by rw [hcs] at hminus; simpa using hminus
        rw [hcs] at hc
        rcases List.mem_cons.mp hc with rfl | hc'
        · rw [hc0]; exact ⟨by decide, by decide, by decide⟩
        · refine hbody c ?_
          rw [if_pos hminus, hcs]
          exact hc'
    · refine hbody c ?_
      rw [if_neg hminus]
      exact hc

/-- No comma means no match for the `(.*),\s+(.*)$` split. -/
theorem geoSplit_none (l : List Char) : (∀ c ∈ l, c ≠ ',') → geoSplit l = none := by
  induction l with
  | nil => intro _; rfl
  | cons c cs ih =>
    intro h
    rw [geoSplit]
    by_cases hnl : c = '\n'
    · rw [if_pos hnl]
    · rw [if_neg hnl, ih (fun x hx => h x (List.mem_cons_of_mem _ hx))]
      dsimp only
      rw [if_neg (h c (List.mem_cons_self _ _))]

/-- The split of a well-formed geolocation payload: group 1 is everything
before the separating comma, group 2 everything after its whitespace. -/
theorem geoSplit_append :
    ∀ (g1 : List Char), (∀ c ∈ g1, c ≠ ',' ∧ c ≠ '\n') →
      ∀ (b : List Char), b ≠ [] →
      (∀ c ∈ b, c.isWhitespace = false ∧ c ≠ ',' ∧ c ≠ '\n') →
      geoSplit (g1 ++ ',' :: ' ' :: b) = some (g1, b) := by
  intro g1
  induction g1 with
  | nil =>
    intro _ b hbne hb
    have htw : (' ' :: b).takeWhile Char.isWhitespace = [' '] := by
      rw [List.takeWhile_cons, if_pos (by decide),
        takeWhile_eq_nil_of_neg _ b (fun c hc => (hb c hc).1)]
    have hdw : (' ' :: b).dropWhile Char.isWhitespace = b := by
      rw [List.dropWhile_cons_of_pos (by decide),
        dropWhile_eq_self_of_neg _ b (fun c hc => (hb c hc).1)]
    have hgl : ¬(b.getLast? = some '\n') := fun he =>
      (hb '\n' (List.mem_of_getLast?_eq_some he)).2.2 rfl
    have hcn : b.contains '\n' = false :=
      contains_eq_false_of_not_mem b '\n' (fun x hx => (hb x hx).2.2)
    rw [List.nil_append, geoSplit, if_neg (by decide : ¬(',' = '\n'))]
    rw [geoSplit_none (' ' :: b) (by
      intro c hc
      rcases List.mem_cons.mp hc with rfl | hc'
      · decide
      · exact (hb c hc').2.1)]
    dsimp only
    rw [if_pos (rfl : (',' : Char) = ',')]
    simp only [htw, hdw]
    rw [if_neg hgl]
    rw [if_pos ⟨by simp, by rw [hcn]; simp⟩]
  | cons c g1' ih =>
    intro hg1 b hbne hb
    rw [List.cons_append, geoSplit,
      if_neg (hg1 c (List.mem_cons_self _ _)).2,
      ih (fun x hx => hg1 x (List.mem_cons_of_mem _ hx)) b hbne hb]

/-- The geolocation regex accepts every line of the spec's form
`"Geolocation: <lat>, <lon>"` (well-formed decimal payloads) and captures
exactly the two payloads. -/
theorem geoMatch_concat (a b : String)
    (ha : ∀ c ∈ a.data, c.isWhitespace = false ∧ c ≠ ',' ∧ c ≠ '\n')
    (hb : ∀ c ∈ b.data, c.isWhitespace = false ∧ c ≠ ',' ∧ c ≠ '\n')
    (hane : a.data ≠ []) (hbne : b.data ≠ []) :
    geoMatch ("Geolocation: " ++ a ++ ", " ++ b) = some (a, b) := by
  obtain ⟨ca, cas, hsplit⟩ : ∃ ca cas, a.data = ca :: cas := by
    cases hcs : a.data with
    | nil => exact absurd hcs hane
    | cons x xs => exact ⟨x, xs, rfl⟩
  have hca : ca.isWhitespace = false :=
    (ha ca (by rw [hsplit]; exact List.mem_cons_self _ _)).1
  have hdata : ("Geolocation: " ++ a ++ ", " ++ b).data =
      "Geolocation:".data ++ (' ' :: (a.data ++ ',' :: ' ' :: b.data)) := by
    simp only [String.data_append, List.append_assoc]
    rfl
  have hshape : (a.data ++ ',' :: ' ' :: b.data) = ca :: (cas ++ ',' :: ' ' :: b.data) := by
    rw [hsplit]
    rfl
  have hdrop : ("Geolocation:".data ++
      (' ' :: (a.data ++ ',' :: ' ' :: b.data))).drop 12 =
      ' ' :: (a.data ++ ',' :: ' ' :: b.data) := rfl
  have htw : (' ' :: (a.data ++ ',' :: ' ' :: b.data)).takeWhile Char.isWhitespace ≠ [] := by
    rw [List.takeWhile_cons, if_pos (by decide)]
    simp
  have hdw : (' ' :: (a.data ++ ',' :: ' ' :: b.data)).dropWhile Char.isWhitespace =
      a.data ++ ',' :: ' ' :: b.data := by
    rw [List.dropWhile_cons_of_pos (by decide), hshape,
      List.dropWhile_cons_of_neg (by simp [hca]), ← hshape]
  simp only [geoMatch]
  rw [hdata, if_pos ((List.isPrefixOf_iff_prefix).mpr (List.prefix_append _ _)), hdrop,
    if_neg htw, hdw,
    geoSplit_append a.data (fun c hc => ⟨(ha c hc).2.1, (ha c hc).2.2⟩) b.data hbne hb]

/-- `float("38.9")` is exactly 389/10. -/
theorem pyFloat_389 : pyFloat "38.9" = some (389 / 10 : Rat) := by
  rw [show pyFloat "38.9" = some (((389 : Nat) : Rat) / 10 ^ 1) from rfl]
  simp only [Option.some.injEq]
  push_cast
  norm_num

/-- `float("-77.0")` is exactly -77. -/
theorem pyFloat_m77 : pyFloat "-77.0" = some (-77 : Rat) := by
  rw [show pyFloat "-77.0" = some (-(((770 : Nat) : Rat) / 10 ^ 1)) from rfl]
  simp only [Option.some.injEq]
  push_cast
  norm_num

/-- A geolocation span of the spec's form at the head of the span list
yields the two numeric fields followed by the rest of the loop. -/
theorem locLoop_geo_cons (ctx : Context) (a b : String) (la lb : Rat)
    (rest : List String)
    (hwa : wfDecimal a = true) (hwb : wfDecimal b = true)
    (hfa : pyFloat a = some la) (hfb : pyFloat b = some lb) :
    locLoop ctx (("Geolocation: " ++ a ++ ", " ++ b) :: rest) =
      (locLoop ctx rest).map
        (fun tail => Field.mk "latitude" (some (.f la)) ::
                     Field.mk "longitude" (some (.f lb)) :: tail) := by
  obtain ⟨hanee, hachars⟩ := wfDecimal_chars a hwa
  obtain ⟨hbnee, hbchars⟩ := wfDecimal_chars b hwb
  have hne : ("Geolocation: " ++ a ++ ", " ++ b) ≠ "" := by
    intro he
    have h2 := congrArg String.data he
    simp [String.data_append] at h2
  rw [locLoop, if_neg hne, geoMatch_concat a b hachars hbchars hanee hbnee]
  dsimp only
  rw [hfa, hfb]

/-- C8: in the Location section, a span of the form
`"Geolocation: <lat>, <lon>"` yields numeric `latitude`/`longitude` fields
holding the parsed values; a non-empty non-geolocation span matching the
known-address/city-state heuristics is discarded; any other non-empty span
becomes `location_description`; and `"Geolocation: 38.9, -77.0"` yields
`latitude = 38.9` and `longitude = -77.0`. -/
theorem location_fields_characterization :
    (∀ (ctx : Context) (a b : String) (la lb : Rat) (rest : List String),
      wfDecimal a = true → wfDecimal b = true →
      pyFloat a = some la → pyFloat b = some lb →
      locLoop ctx (("Geolocation: " ++ a ++ ", " ++ b) :: rest) =
        (locLoop ctx rest).map
          (fun tail => Field.mk "latitude" (some (.f la)) ::
                       Field.mk "longitude" (some (.f lb)) :: tail)) ∧
    (∀ (ctx : Context) (t : String) (rest : List String), t ≠ "" → geoMatch t = none →
      (describes_city_and_state ctx t || describes_address ctx t) = true →
      locLoop ctx (t :: rest) = locLoop ctx rest) ∧
    (∀ (ctx : Context) (t : String) (rest : List String), t ≠ "" → geoMatch t = none →
      (describes_city_and_state ctx t || describes_address ctx t) = false →
      locLoop ctx (t :: rest) =
        (locLoop ctx rest).map
          (fun tail => Field.mk "location_description" (some (.s t)) :: tail)) ∧
    (∀ ctx : Context, _extract_location_fields ctx (some demoLocSec) =
      some [Field.mk "latitude" (some (.f (389 / 10))),
            Field.mk "longitude" (some (.f (-77)))]) := by
  refine ⟨locLoop_geo_cons, ?_, ?_, ?_⟩
  · intro ctx t rest ht hgeo hdisc
    rw [locLoop, if_neg ht, hgeo]
    dsimp only
    rw [if_pos hdisc]
  · intro ctx t rest ht hgeo hdisc
    rw [locLoop, if_neg ht, hgeo]
    dsimp only
    rw [if_neg (by simp [hdisc])]
  · intro ctx
    show locLoop ctx ["Geolocation: 38.9, -77.0"] = _
    rw [show ("Geolocation: 38.9, -77.0" : String) =
        "Geolocation: " ++ "38.9" ++ ", " ++ "-77.0" from rfl]
    rw [locLoop_geo_cons ctx "38.9" "-77.0" (389 / 10) (-77) []
      (by decide) (by decide) pyFloat_389 pyFloat_m77]
    rfl

/-- Witness for `location_fields_characterization`. -/
theorem location_fields_characterization_witness :
    locLoop demoCtx ["Geolocation: 38.9, -77.0"] =
      some [Field.mk "latitude" (some (.f (389 / 10))),
            Field.mk "longitude" (some (.f (-77)))] := by
  rw [show ("Geolocation: 38.9, -77.0" : String) =
      "Geolocation: " ++ "38.9" ++ ", " ++ "-77.0" from rfl]
  rw [location_fields_characterization.1 demoCtx "38.9" "-77.0" (389 / 10) (-77) []
    (by decide) (by decide) pyFloat_389 pyFloat_m77]
  rfl

/-- C9: with `average_wait = 10` and `base = 2`, the wait computed for the
standard-normal draw `fuzz` is `ceil(2 ^ (log2 10 + fuzz))`, always at least
`1`; with zero jitter it is exactly `10`. -/
theorem compute_wait_lognormal :
    (∀ fuzz : ℝ, _compute_wait 10 2 fuzz = ⌈(2:ℝ) ^ (Real.logb 2 10 + fuzz)⌉ ∧
      1 ≤ _compute_wait 10 2 fuzz) ∧
    _compute_wait 10 2 0 = 10 := by
  constructor
  · intro fuzz
    refine ⟨rfl, ?_⟩
    show (1:ℤ) ≤ ⌈(2:ℝ) ^ (Real.logb 2 10 + fuzz)⌉
    have hpos : (0:ℝ) < (2:ℝ) ^ (Real.logb 2 10 + fuzz) :=
      Real.rpow_pos_of_pos (by norm_num) _
    have := Int.ceil_pos.mpr hpos
    omega
  · show (⌈(2:ℝ) ^ (Real.logb 2 10 + 0)⌉ : ℤ) = 10
    rw [add_zero, Real.rpow_logb (by norm_num) (by norm_num) (by norm_num)]
    rw [show ((10:ℝ)) = ((10:ℤ):ℝ) by norm_num, Int.ceil_intCast]

end Stage2

